import Mathlib

/-!
# Verification of the async sequencer demo (`src/02-async/src/index.js`)

The script under verification is a four-step promise chain:

```js
(function() {
    function begin()  { console.log("begin"); return 0; }
    function end()    { console.log("end"); }
    function incrementAsync(i) {
        var defer = Q.defer();
        setTimeout(function() { i++; console.log(i); defer.resolve(i); }, 0);
        return defer.promise;
    }
    Q.fcall(begin).then(incrementAsync).then(incrementAsync)
                  .then(incrementAsync).then(end);
}());
```

We embed it as a deterministic single-threaded event-loop machine.
The external promise library `Q` is treated as a black box with its
documented (Promises/A+) dispatch semantics: `Q.fcall(f)` invokes `f`
asynchronously on a later turn of the event loop, and every `.then`
handler is likewise invoked asynchronously, only after the promise it
was attached to has settled.  `setTimeout(fn, 0)` queues `fn` for a
later turn.  At every moment this program has at most one pending
callback, so the machine runs one pending task per event-loop turn.

* `Ev` / `TEv`: observable events (console lines, step start,
  deferred completion), tagged with the event-loop turn they occur on;
  turn 0 is the synchronous evaluation of the script itself.
* `Task`: the pending callbacks of this script.
* `runTask`: what one callback does when the event loop runs it,
  translated line by line from the source.
* `runLoop`: the event loop, with fuel for termination.
* `scriptSync` / `scriptTrace`: the synchronous phase and the full run.
-/

namespace Async02

/-- Settlement of a promise: fulfilled with a value or rejected with an
error.  The source never rejects, but promise semantics has both
branches, so we carry both and can ask which ones the run exercises. -/
inductive Settlement where
  | fulfilled (v : Int)
  | rejected (e : String)
deriving DecidableEq, Repr

/-- Observable events of a run. `out s` is a `console.log(s)` line;
`stepStart n` marks the invocation of `incrementAsync` for step `n`
(its synchronous part); `stepComplete n s` marks step `n`'s deferred
callback settling its promise (`defer.resolve`). -/
inductive Ev where
  | out (s : String)
  | stepStart (n : Nat)
  | stepComplete (n : Nat) (s : Settlement)
deriving DecidableEq, Repr

/-- An event tagged with the event-loop turn on which it happened.
Turn 0 is the synchronous evaluation of the script's top level. -/
structure TEv where
  turn : Nat
  ev : Ev
deriving DecidableEq, Repr

/-- The pending callbacks of this script.  `callBegin` is the
asynchronous invocation of `begin` scheduled by `Q.fcall`;
`thenIncrement n s` is the dispatch of the `n`-th `.then(incrementAsync)`
handler on an incoming settlement `s`; `timeoutFire n i` is the
`setTimeout` callback created inside step `n`'s `incrementAsync(i)`;
`thenEnd s` is the dispatch of the final `.then(end)` handler. -/
inductive Task where
  | callBegin
  | thenIncrement (n : Nat) (s : Settlement)
  | timeoutFire (n : Nat) (i : Int)
  | thenEnd (s : Settlement)
deriving DecidableEq, Repr

/-- `begin` from the source: logs `"begin"` and returns `0`
(the line logged and the value returned). -/
def begin : String × Int := ("begin", 0)

/-- `end` from the source (Lean reserves `end`, hence `endFn`): logs
`"end"` and returns nothing. -/
def endFn : String := "end"

/-- The body of the `setTimeout` callback inside `incrementAsync`:
`i++; console.log(i); defer.resolve(i)` — the line logged and the value
the deferred promise is resolved with. -/
def incrementBody (i : Int) : String × Int := (toString (i + 1), i + 1)

/-- Run one pending callback: the events it emits and the (at most one)
callback it leaves pending.  `steps` is the number of
`.then(incrementAsync)` links in the chain (3 in the source).

* `callBegin`: `begin()` runs, logging `"begin"`; the `Q.fcall` promise
  is fulfilled with its return value `0`, which schedules the first
  chained handler.
* `thenIncrement n (fulfilled i)`: `incrementAsync(i)` runs
  synchronously: it creates a deferred, schedules the `setTimeout`
  callback, logs nothing, and returns the pending promise.
* `thenIncrement n (rejected e)`: no rejection handler is attached, so
  the rejection propagates to the next link unchanged.
* `timeoutFire n i`: the deferred work runs: `i++`, log the new value,
  `defer.resolve` with it; the settlement schedules the next link
  (`incrementAsync` again, or `end` after the last step).
* `thenEnd (fulfilled v)`: `end()` runs, logging `"end"`; `v` is
  ignored. `thenEnd (rejected e)`: the rejection is unhandled. -/
def runTask (steps : Nat) : Task → List Ev × Option Task
  | .callBegin =>
      ([.out begin.1],
        some (if steps = 0 then .thenEnd (.fulfilled begin.2)
              else .thenIncrement 1 (.fulfilled begin.2)))
  | .thenIncrement n s =>
      match s with
      | .fulfilled i => ([.stepStart n], some (.timeoutFire n i))
      | .rejected e =>
          ([], some (if n < steps then .thenIncrement (n + 1) (.rejected e)
                     else .thenEnd (.rejected e)))
  | .timeoutFire n i =>
      ([.out (incrementBody i).1, .stepComplete n (.fulfilled (incrementBody i).2)],
        some (if n < steps then .thenIncrement (n + 1) (.fulfilled (incrementBody i).2)
              else .thenEnd (.fulfilled (incrementBody i).2)))
  | .thenEnd s =>
      match s with
      | .fulfilled _ => ([.out endFn], none)
      | .rejected _ => ([], none)

/-- The event loop: runs the pending callback of each turn, collecting
turn-tagged events.  `fuel` bounds the number of turns (this chain has
at most one pending callback at a time, so one callback per turn). -/
def runLoop (steps : Nat) : Nat → Nat → Option Task → List TEv
  | _, _, none => []
  | 0, _, some _ => []
  | fuel + 1, turn, some t =>
      (runTask steps t).1.map (fun e => ⟨turn, e⟩) ++
        runLoop steps fuel (turn + 1) (runTask steps t).2

/-- The sequence of callbacks the event loop actually executes,
in order. -/
def taskSeq (steps : Nat) : Nat → Option Task → List Task
  | _, none => []
  | 0, some _ => []
  | fuel + 1, some t => t :: taskSeq steps fuel (runTask steps t).2

/-- Synchronous evaluation of the IIFE (turn 0): the function
declarations emit nothing; `Q.fcall(begin)` does not call `begin`
synchronously but schedules it for a later turn, and each `.then`
merely registers a handler.  So the synchronous phase emits no events
and leaves one pending callback: the asynchronous call of `begin`. -/
def scriptSync : List TEv × Task := ([], .callBegin)

/-- The full observable run of the script: the (empty) synchronous
phase followed by the event loop draining the chain.  The source chain
has 3 increment steps; 20 units of fuel are more than the 8 callbacks
the run executes. -/
def scriptTrace : List TEv := scriptSync.1 ++ runLoop 3 20 1 (some scriptSync.2)

/-- The console lines of a trace, in order. -/
def outputs (t : List TEv) : List String :=
  t.filterMap (fun e => match e.ev with | .out s => some s | _ => none)

/-- The deferred completions of a trace: which step settled, with what. -/
def completions (t : List TEv) : List (Nat × Settlement) :=
  t.filterMap (fun e => match e.ev with | .stepComplete n s => some (n, s) | _ => none)

/-- True when some event before position `j`... more precisely: the
first event satisfying `p` occurs strictly before the first event
satisfying `q` (both must occur). -/
def firstBefore (t : List TEv) (p q : TEv → Bool) : Bool :=
  match t.findIdx? p, t.findIdx? q with
  | some i, some j => decide (i < j)
  | _, _ => false

/-- Recognizes the start-of-step-`n` event. -/
def isStepStart (n : Nat) (e : TEv) : Bool :=
  match e.ev with | .stepStart m => m == n | _ => false

/-- Recognizes the completion event of step `n`. -/
def isStepComplete (n : Nat) (e : TEv) : Bool :=
  match e.ev with | .stepComplete m _ => m == n | _ => false

/-- Recognizes the console line `s`. -/
def isOutLine (s : String) (e : TEv) : Bool :=
  match e.ev with | .out t => t == s | _ => false

/-- A callback dispatched on a rejected settlement: the rejection
branch of a `.then` link. -/
def carriesRejection : Task → Bool
  | .thenIncrement _ (.rejected _) => true
  | .thenEnd (.rejected _) => true
  | _ => false

/-- Is this settlement a fulfillment? -/
def isFulfilled : Settlement → Bool
  | .fulfilled _ => true
  | .rejected _ => false

/-- The three turn-tagged events one increment step contributes when it
starts on turn `turn` with input `i`: the step starts, and on the NEXT
turn its deferred work logs `i+1` and resolves with `i+1`. -/
def stepTrace (n : Nat) (i : Int) (turn : Nat) : List TEv :=
  [⟨turn, .stepStart n⟩, ⟨turn + 1, .out (toString (i + 1))⟩,
   ⟨turn + 1, .stepComplete n (.fulfilled (i + 1))⟩]

/-- The full trace of running steps `n, n+1, ..., n+m` (that is, `m+1`
increment steps) from input `i` starting on turn `turn`, followed by
`end`. -/
def chainTrace : Nat → Nat → Int → Nat → List TEv
  | n, 0, i, turn => stepTrace n i turn ++ [⟨turn + 2, .out endFn⟩]
  | n, m + 1, i, turn => stepTrace n i turn ++ chainTrace (n + 1) m (i + 1) (turn + 2)

/-- The numeric console lines `i+1, i+2, ..., i+m` as strings. -/
def numLines : Int → Nat → List String
  | _, 0 => []
  | i, m + 1 => toString (i + 1) :: numLines (i + 1) m

/-- One turn of the event loop, unfolded. -/
theorem runLoop_succ (steps fuel turn : Nat) (t : Task) :
    runLoop steps (fuel + 1) turn (some t) =
      (runTask steps t).1.map (fun e => ⟨turn, e⟩) ++
        runLoop steps fuel (turn + 1) (runTask steps t).2 := rfl

/-- Running the event loop on the dispatch of step `n` with input `i`,
in a chain whose last step is `n+m`, produces exactly `chainTrace`:
the steps run strictly one after another, each one's deferred work on
a later turn, and `end` runs last.  Fuel `2*m+3` is exactly the number
of callbacks left. -/
theorem runLoop_chain : ∀ (m n : Nat) (i : Int) (turn : Nat),
    runLoop (n + m) (2 * m + 3) turn (some (.thenIncrement n (.fulfilled i))) =
      chainTrace n m i turn := by
  intro m
  induction m with
  | zero =>
      intro n i turn
      simp [runLoop, runTask, chainTrace, stepTrace, incrementBody]
  | succ m ih =>
      intro n i turn
      have hf : 2 * (m + 1) + 3 = (2 * m + 3) + 1 + 1 := by ring
      have hlt : n < n + (m + 1) := by omega
      have hs : n + (m + 1) = (n + 1) + m := by omega
      rw [hf, runLoop_succ]
      simp only [runTask, List.map_cons, List.map_nil]
      rw [runLoop_succ]
      simp only [runTask, incrementBody, if_pos hlt, List.map_cons, List.map_nil,
        List.cons_append, List.nil_append]
      rw [hs, ih (n + 1) (i + 1) (turn + 1 + 1)]
      simp [chainTrace, stepTrace]

/-- The console lines of `chainTrace` are the `m+1` incremented values
followed by `end`. -/
theorem outputs_chainTrace : ∀ (m n : Nat) (i : Int) (turn : Nat),
    outputs (chainTrace n m i turn) = numLines i (m + 1) ++ [endFn] := by
  intro m
  induction m with
  | zero => intro n i turn; simp [chainTrace, stepTrace, outputs, numLines]
  | succ m ih =>
      intro n i turn
      simp [chainTrace, stepTrace, outputs, numLines] at ih ⊢
      exact ih (n + 1) (i + 1) (turn + 2)

/-- The last step of `chainTrace` resolves with the input plus the
number of steps run. -/
theorem chainTrace_final : ∀ (m n : Nat) (i : Int) (turn : Nat),
    ∃ τ, (⟨τ, .stepComplete (n + m) (.fulfilled (i + (m : Int) + 1))⟩ : TEv) ∈
      chainTrace n m i turn := by
  intro m
  induction m with
  | zero =>
      intro n i turn
      exact ⟨turn + 1, by simp [chainTrace, stepTrace]⟩
  | succ m ih =>
      intro n i turn
      obtain ⟨τ, h⟩ := ih (n + 1) (i + 1) (turn + 2)
      refine ⟨τ, ?_⟩
      have e1 : n + (m + 1) = (n + 1) + m := by omega
      have e2 : i + ((m + 1 : Nat) : Int) + 1 = (i + 1) + (m : Int) + 1 := by
        push_cast; ring
      rw [chainTrace, List.mem_append, e1, e2]
      exact Or.inr h

/-- The completion events among a plain list of events. -/
def completionsEv (l : List Ev) : List (Nat × Settlement) :=
  l.filterMap (fun e => match e with | .stepComplete n s => some (n, s) | _ => none)

/-- Modelled from the IEEE-754 binary64 semantics of the source's
JavaScript runtime (external to `src/`, like `Q`): the number of binary
digits of a natural number, fuel-driven so that it computes by plain
kernel reduction.  Sufficient fuel is the number itself. -/
def bitLenAux : Nat → Nat → Nat
  | 0, _ => 0
  | fuel + 1, n => if n = 0 then 0 else bitLenAux fuel (n / 2) + 1

/-- The number of binary digits of `n` (0 for 0). -/
def bitLen (n : Nat) : Nat := bitLenAux n n

/-- Modelled from IEEE-754 binary64: round a nonnegative integer to
the nearest representable double, halfway ties to the even
significand.  Integers of at most 53 bits (`≤ 2^53` among them) are
exact; above, the representable doubles are the multiples of
`2^(bitLen a - 53)`.  (Overflow to infinity, at `2^1024`, is not
modelled; it is far beyond every input considered here.) -/
def roundNat (a : Nat) : Nat :=
  if bitLen a ≤ 53 then a
  else
    let e := bitLen a - 53
    let q := a / 2 ^ e
    let r := a % 2 ^ e
    if r < 2 ^ (e - 1) then q * 2 ^ e
    else if 2 ^ (e - 1) < r then (q + 1) * 2 ^ e
    else if q % 2 = 0 then q * 2 ^ e else (q + 1) * 2 ^ e

/-- Modelled from IEEE-754 binary64: rounding for signed integers
(doubles are sign-symmetric). -/
def f64round (n : Int) : Int :=
  if 0 ≤ n then (roundNat n.toNat : Int) else -(roundNat (-n).toNat : Int)

/-- Modelled from IEEE-754 binary64: the `i++` of the `setTimeout`
body as the double-based runtime executes it on an integer-valued
double `i`: the exact sum `i + 1`, rounded to the nearest double. -/
def jsIncrement (i : Int) : Int := f64round (i + 1)

/-- The `setTimeout` body of `incrementAsync` as the double-based
runtime executes it: `i++; console.log(i); defer.resolve(i)` with
binary64 arithmetic.  (JavaScript prints integer doubles below `10^21`
in decimal, which `toString` matches; the exponential notation used at
and above `10^21` is not modelled and not reached at the inputs
considered here, all below `2^54 < 10^17`.) -/
def incrementBodyF64 (i : Int) : String × Int :=
  (toString (jsIncrement i), jsIncrement i)

/-- `runTask` with the double-based `setTimeout` body: identical to
`runTask` except that the deferred work of `incrementAsync` computes
with binary64 arithmetic instead of unbounded integers. -/
def runTaskF64 (steps : Nat) : Task → List Ev × Option Task
  | .callBegin =>
      ([.out begin.1],
        some (if steps = 0 then .thenEnd (.fulfilled begin.2)
              else .thenIncrement 1 (.fulfilled begin.2)))
  | .thenIncrement n s =>
      match s with
      | .fulfilled i => ([.stepStart n], some (.timeoutFire n i))
      | .rejected e =>
          ([], some (if n < steps then .thenIncrement (n + 1) (.rejected e)
                     else .thenEnd (.rejected e)))
  | .timeoutFire n i =>
      ([.out (incrementBodyF64 i).1, .stepComplete n (.fulfilled (incrementBodyF64 i).2)],
        some (if n < steps then .thenIncrement (n + 1) (.fulfilled (incrementBodyF64 i).2)
              else .thenEnd (.fulfilled (incrementBodyF64 i).2)))
  | .thenEnd s =>
      match s with
      | .fulfilled _ => ([.out endFn], none)
      | .rejected _ => ([], none)

/-- The event loop over the double-based callbacks. -/
def runLoopF64 (steps : Nat) : Nat → Nat → Option Task → List TEv
  | _, _, none => []
  | 0, _, some _ => []
  | fuel + 1, turn, some t =>
      (runTaskF64 steps t).1.map (fun e => ⟨turn, e⟩) ++
        runLoopF64 steps fuel (turn + 1) (runTaskF64 steps t).2

/-- A number below `2^k` has at most `k` binary digits, whatever the
fuel. -/
theorem bitLenAux_le : ∀ (fuel n k : Nat), n < 2 ^ k → bitLenAux fuel n ≤ k := by
  intro fuel
  induction fuel with
  | zero => intro n k _; exact Nat.zero_le k
  | succ fuel ih =>
      intro n k h
      by_cases hn : n = 0
      · simp [bitLenAux, hn]
      · have hk : k ≠ 0 := by
          rintro rfl
          simp at h
          omega
        obtain ⟨k', rfl⟩ := Nat.exists_eq_succ_of_ne_zero hk
        have hp : 2 ^ (k' + 1) = 2 * 2 ^ k' := by ring
        have h2 : n / 2 < 2 ^ k' := by omega
        simp only [bitLenAux, if_neg hn]
        exact Nat.succ_le_succ (ih (n / 2) k' h2)

/-- Binary64 rounding is the identity on integers up to
`2^53 = 9007199254740992`. -/
theorem roundNat_exact (a : Nat) (h : a ≤ 9007199254740992) : roundNat a = a := by
  rcases Nat.lt_or_ge a 9007199254740992 with h1 | h1
  · have hpow : (2 : Nat) ^ 53 = 9007199254740992 := by norm_num
    have hb : bitLen a ≤ 53 := bitLenAux_le a a 53 (by rw [hpow]; omega)
    unfold roundNat
    rw [if_pos hb]
  · have ha : a = 9007199254740992 := by omega
    subst ha
    decide

/-- Binary64 rounding is the identity on signed integers of magnitude
at most `2^53`. -/
theorem f64round_exact (n : Int) (h1 : -9007199254740992 ≤ n)
    (h2 : n ≤ 9007199254740992) : f64round n = n := by
  unfold f64round
  rcases le_or_lt 0 n with h | h
  · rw [if_pos h, roundNat_exact n.toNat (by omega)]
    omega
  · rw [if_neg (by omega), roundNat_exact (-n).toNat (by omega)]
    omega

/-- Within the exactly representable range the double-based
`setTimeout` body coincides with the integer model. -/
theorem incrementBodyF64_exact (i : Int) (h1 : -9007199254740992 ≤ i)
    (h2 : i + 1 ≤ 9007199254740992) : incrementBodyF64 i = incrementBody i := by
  unfold incrementBodyF64 incrementBody jsIncrement
  rw [f64round_exact (i + 1) (by omega) h2]

/-- One turn of the double-based event loop, unfolded. -/
theorem runLoopF64_succ (steps fuel turn : Nat) (t : Task) :
    runLoopF64 steps (fuel + 1) turn (some t) =
      (runTaskF64 steps t).1.map (fun e => ⟨turn, e⟩) ++
        runLoopF64 steps fuel (turn + 1) (runTaskF64 steps t).2 := rfl

/-- As long as every value of the chain stays in the exactly
representable range, the double-based event loop produces exactly the
same trace `chainTrace` as the integer model. -/
theorem runLoopF64_chain : ∀ (m n : Nat) (i : Int) (turn : Nat),
    -9007199254740992 ≤ i → i + (m : Int) + 1 ≤ 9007199254740992 →
    runLoopF64 (n + m) (2 * m + 3) turn (some (.thenIncrement n (.fulfilled i))) =
      chainTrace n m i turn := by
  intro m
  induction m with
  | zero =>
      intro n i turn hlo hhi
      have hbody : incrementBodyF64 i = incrementBody i :=
        incrementBodyF64_exact i hlo (by push_cast at hhi; omega)
      simp [runLoopF64, runTaskF64, hbody, incrementBody, chainTrace, stepTrace]
  | succ m ih =>
      intro n i turn hlo hhi
      have hbody : incrementBodyF64 i = incrementBody i :=
        incrementBodyF64_exact i hlo (by push_cast at hhi; omega)
      have hf : 2 * (m + 1) + 3 = (2 * m + 3) + 1 + 1 := by ring
      have hlt : n < n + (m + 1) := by omega
      have hs : n + (m + 1) = (n + 1) + m := by omega
      rw [hf, runLoopF64_succ]
      simp only [runTaskF64, List.map_cons, List.map_nil]
      rw [runLoopF64_succ]
      simp only [runTaskF64, hbody, incrementBody, if_pos hlt, List.map_cons,
        List.map_nil, List.cons_append, List.nil_append]
      rw [hs, ih (n + 1) (i + 1) (turn + 1 + 1) (by omega) (by push_cast at hhi ⊢; omega)]
      simp [chainTrace, stepTrace]

/-- Claim C1: running the demonstration script (three chained
asynchronous increment steps starting from counter 0) produces on the
console exactly the five lines `begin`, `1`, `2`, `3`, `end`, in that
order, with no other output. -/
theorem demo_output_exact : outputs scriptTrace = ["begin", "1", "2", "3", "end"] := by
  decide

/-- Claim C2: for consecutive steps `n` and `n+1` of the demo run, step
`n`'s deferred completion occurs strictly before step `n+1` starts, and
the numeric line of step `n` (the digit `n`) is emitted strictly before
step `n+1` starts; so no numeric line appears before its predecessor's
deferred work has completed. -/
theorem step_sequencing (n : Nat) (h1 : 1 ≤ n) (h2 : n < 3) :
    firstBefore scriptTrace (isStepComplete n) (isStepStart (n + 1)) = true ∧
    firstBefore scriptTrace (isOutLine (toString (n : Int))) (isStepStart (n + 1)) = true := by
  interval_cases n <;> exact ⟨by decide, by decide⟩

/-- Witness for C2 at `n = 1`. -/
theorem step_sequencing_witness :
    1 ≤ 1 ∧ 1 < 3 ∧
    (firstBefore scriptTrace (isStepComplete 1) (isStepStart 2) = true ∧
     firstBefore scriptTrace (isOutLine (toString (1 : Int))) (isStepStart 2) = true) :=
  ⟨by decide, by decide, step_sequencing 1 (by decide) (by decide)⟩

/-- Claim C3: each step, given the current counter value `i`, schedules
its work as a deferred unit (the synchronous part of `incrementAsync`
emits no console line and leaves the `setTimeout` callback pending),
the deferred work increments the counter by one, emits the new value,
and resolves with the new value, which is dispatched as the input of
the next step; in the event loop, the deferred work runs on a later
turn than the step's start. -/
theorem incrementAsync_step (steps n : Nat) (i : Int) (fuel turn : Nat) (h : n < steps) :
    runTask steps (.thenIncrement n (.fulfilled i)) =
      ([.stepStart n], some (.timeoutFire n i)) ∧
    runTask steps (.timeoutFire n i) =
      ([.out (toString (i + 1)), .stepComplete n (.fulfilled (i + 1))],
        some (.thenIncrement (n + 1) (.fulfilled (i + 1)))) ∧
    runLoop steps (fuel + 2) turn (some (.thenIncrement n (.fulfilled i))) =
      ⟨turn, .stepStart n⟩ :: ⟨turn + 1, .out (toString (i + 1))⟩ ::
        ⟨turn + 1, .stepComplete n (.fulfilled (i + 1))⟩ ::
        runLoop steps fuel (turn + 2) (some (.thenIncrement (n + 1) (.fulfilled (i + 1)))) := by
  refine ⟨by simp [runTask], by simp [runTask, incrementBody, if_pos h], ?_⟩
  rw [runLoop_succ]
  simp only [runTask, List.map_cons, List.map_nil]
  rw [runLoop_succ]
  simp [runTask, incrementBody, if_pos h]

/-- Witness for C3 at `steps = 3`, `n = 1`, `i = 0`, `fuel = 4`,
`turn = 2`. -/
theorem incrementAsync_step_witness :
    1 < 3 ∧
    (runTask 3 (.thenIncrement 1 (.fulfilled 0)) =
       ([.stepStart 1], some (.timeoutFire 1 0)) ∧
     runTask 3 (.timeoutFire 1 0) =
       ([.out (toString (0 + 1 : Int)), .stepComplete 1 (.fulfilled (0 + 1))],
         some (.thenIncrement 2 (.fulfilled (0 + 1)))) ∧
     runLoop 3 6 2 (some (.thenIncrement 1 (.fulfilled 0))) =
       ⟨2, .stepStart 1⟩ :: ⟨3, .out (toString (0 + 1 : Int))⟩ ::
         ⟨3, .stepComplete 1 (.fulfilled (0 + 1))⟩ ::
         runLoop 3 4 4 (some (.thenIncrement 2 (.fulfilled (0 + 1))))) :=
  ⟨by decide, incrementAsync_step 3 1 0 4 2 (by decide)⟩

/-- Claim C4: the first action of the chain emits the line `begin` and
establishes the initial counter value 0: `begin` returns `("begin", 0)`,
the asynchronous call of `begin` scheduled by `Q.fcall` logs `begin`
and dispatches the first increment step on the fulfillment value 0, and
the first event of the whole run is the `begin` line. -/
theorem begin_initial :
    begin = ("begin", 0) ∧
    runTask 3 .callBegin = ([.out "begin"], some (.thenIncrement 1 (.fulfilled 0))) ∧
    scriptTrace.head? = some ⟨1, .out "begin"⟩ :=
  ⟨rfl, by decide, by decide⟩

/-- Claim C5: the line `end` is the last console line of the run, and
for every step `n` of the three, step `n`'s deferred completion occurs
strictly before the `end` line is emitted. -/
theorem end_last (n : Nat) (h1 : 1 ≤ n) (h2 : n ≤ 3) :
    (outputs scriptTrace).getLast? = some endFn ∧
    firstBefore scriptTrace (isStepComplete n) (isOutLine endFn) = true := by
  interval_cases n <;> exact ⟨by decide, by decide⟩

/-- Witness for C5 at `n = 3`. -/
theorem end_last_witness :
    1 ≤ 3 ∧ 3 ≤ 3 ∧
    ((outputs scriptTrace).getLast? = some endFn ∧
     firstBefore scriptTrace (isStepComplete 3) (isOutLine endFn) = true) :=
  ⟨by decide, by decide, end_last 3 (by decide) (by decide)⟩

/-- Claim C6: over the demo run, the counter is mutated exactly once
per step — the run's completions are exactly `(1,1), (2,2), (3,3)`,
three in total, so after `k` completed steps the counter equals `k`;
each deferred unit performs exactly one increment (one completion
event, with value input plus one); and the final value is discarded:
the `end` handler's observable behavior does not depend on the value it
receives. -/
theorem counter_lifecycle :
    completions scriptTrace = [(1, .fulfilled 1), (2, .fulfilled 2), (3, .fulfilled 3)] ∧
    (∀ (steps n : Nat) (i : Int),
      completionsEv (runTask steps (.timeoutFire n i)).1 = [(n, .fulfilled (i + 1))]) ∧
    (∀ (steps : Nat) (v w : Int),
      (runTask steps (.thenEnd (.fulfilled v))).1 =
        (runTask steps (.thenEnd (.fulfilled w))).1) :=
  ⟨by decide, fun steps n i => by simp [runTask, incrementBody, completionsEv],
    fun steps v w => rfl⟩

/-- Claim C7: the chain is deterministic in the two-run sense: any two
runs of the script have identical console output, and each step is
dispatched on exactly the value resolved by its predecessor (the
executed callback sequence threads 0 into step 1, 1 into step 2, 2 into
step 3, and 3 into `end`). -/
theorem chain_deterministic (t1 t2 : List TEv) (h1 : t1 = scriptTrace) (h2 : t2 = scriptTrace) :
    outputs t1 = outputs t2 ∧
    taskSeq 3 20 (some .callBegin) =
      [.callBegin, .thenIncrement 1 (.fulfilled 0), .timeoutFire 1 0,
       .thenIncrement 2 (.fulfilled 1), .timeoutFire 2 1,
       .thenIncrement 3 (.fulfilled 2), .timeoutFire 3 2, .thenEnd (.fulfilled 3)] := by
  subst h1; subst h2; exact ⟨rfl, by decide⟩

/-- Witness for C7: both runs taken to be the script's run. -/
theorem chain_deterministic_witness :
    outputs scriptTrace = outputs scriptTrace ∧
    taskSeq 3 20 (some .callBegin) =
      [.callBegin, .thenIncrement 1 (.fulfilled 0), .timeoutFire 1 0,
       .thenIncrement 2 (.fulfilled 1), .timeoutFire 2 1,
       .thenIncrement 3 (.fulfilled 2), .timeoutFire 3 2, .thenEnd (.fulfilled 3)] :=
  chain_deterministic scriptTrace scriptTrace rfl rfl

/-- Claim C8: no error path is exercised: no callback the run executes
is dispatched on a rejected settlement (the rejection branch of every
`.then` link is unreachable in the run), every completion in the run is
a fulfillment, and for every input the deferred unit of
`incrementAsync` only resolves — every completion event it can emit is
a fulfillment. -/
theorem no_error_path :
    (taskSeq 3 20 (some .callBegin)).all (fun t => !carriesRejection t) = true ∧
    (completions scriptTrace).all (fun c => isFulfilled c.2) = true ∧
    (∀ (steps n : Nat) (i : Int),
      (completionsEv (runTask steps (.timeoutFire n i)).1).all
        (fun c => isFulfilled c.2) = true) :=
  ⟨by decide, by decide,
    fun steps n i => by simp [runTask, incrementBody, completionsEv, isFulfilled]⟩

/-- Claim C9 as stated is false of the double-based program: at the
integer input `v = 2^53 = 9007199254740992` the `i++` of the deferred
unit rounds `2^53 + 1` back to `2^53` (binary64 ties-to-even), so the
unit logs and resolves `v` itself, not `v + 1`. -/
theorem incrementAsync_general_cex :
    (runTaskF64 3 (.timeoutFire 1 9007199254740992)).1 =
      [.out "9007199254740992", .stepComplete 1 (.fulfilled 9007199254740992)] ∧
    (runTaskF64 3 (.timeoutFire 1 9007199254740992)).1 ≠
      [.out (toString (9007199254740992 + 1 : Int)),
       .stepComplete 1 (.fulfilled (9007199254740992 + 1))] :=
  ⟨by decide, by decide⟩

/-- Claim C9 (amended to the exactly representable binary64 range):
for every integer input `v` with `−2^53 ≤ v` and `v + 1 ≤ 2^53`, the
double-based deferred unit of `incrementAsync` emits exactly one
console line, `v+1`, and resolves with `v+1`; and a double-based chain
of `k ≥ 1` increment steps dispatched on any initial value `i` with
`−2^53 ≤ i` and `i + k ≤ 2^53` emits the lines `i+1, ..., i+k`
followed by `end`, and its final step resolves with `i+k`. -/
theorem incrementAsync_safe_range (k : Nat) (i : Int) (hk : 1 ≤ k)
    (hlo : -9007199254740992 ≤ i) (hhi : i + (k : Int) ≤ 9007199254740992) :
    (∀ (steps n : Nat) (v : Int), -9007199254740992 ≤ v → v + 1 ≤ 9007199254740992 →
      (runTaskF64 steps (.timeoutFire n v)).1 =
        [.out (toString (v + 1)), .stepComplete n (.fulfilled (v + 1))]) ∧
    outputs (runLoopF64 k (2 * k + 1) 1 (some (.thenIncrement 1 (.fulfilled i)))) =
      numLines i k ++ [endFn] ∧
    (∃ τ, (⟨τ, .stepComplete k (.fulfilled (i + (k : Int)))⟩ : TEv) ∈
      runLoopF64 k (2 * k + 1) 1 (some (.thenIncrement 1 (.fulfilled i)))) := by
  obtain ⟨m, rfl⟩ := Nat.exists_eq_add_of_le hk
  have hf : 2 * (1 + m) + 1 = 2 * m + 3 := by ring
  have hhi' : i + (m : Int) + 1 ≤ 9007199254740992 := by push_cast at hhi; omega
  rw [hf, runLoopF64_chain m 1 i 1 hlo hhi']
  refine ⟨?_, ?_, ?_⟩
  · intro steps n v hv1 hv2
    have hb : incrementBodyF64 v = incrementBody v := incrementBodyF64_exact v hv1 hv2
    simp [runTaskF64, hb, incrementBody]
  · rw [outputs_chainTrace m 1 i 1]
    have h1 : (1 : Nat) + m = m + 1 := by omega
    rw [h1]
  · obtain ⟨τ, h⟩ := chainTrace_final m 1 i 1
    refine ⟨τ, ?_⟩
    have h2 : i + ((1 + m : Nat) : Int) = i + (m : Int) + 1 := by push_cast; ring
    rw [h2]
    exact h

/-- Witness for the amended C9 at `k = 2`, `i = 5`. -/
theorem incrementAsync_safe_range_witness :
    1 ≤ 2 ∧ -9007199254740992 ≤ (5 : Int) ∧
    (5 : Int) + ((2 : Nat) : Int) ≤ 9007199254740992 ∧
    ((∀ (steps n : Nat) (v : Int), -9007199254740992 ≤ v → v + 1 ≤ 9007199254740992 →
       (runTaskF64 steps (.timeoutFire n v)).1 =
         [.out (toString (v + 1)), .stepComplete n (.fulfilled (v + 1))]) ∧
     outputs (runLoopF64 2 (2 * 2 + 1) 1 (some (.thenIncrement 1 (.fulfilled 5)))) =
       numLines 5 2 ++ [endFn] ∧
     (∃ τ, (⟨τ, .stepComplete 2 (.fulfilled (5 + (2 : Nat) : Int))⟩ : TEv) ∈
       runLoopF64 2 (2 * 2 + 1) 1 (some (.thenIncrement 1 (.fulfilled 5))))) :=
  ⟨by decide, by decide, by decide,
    incrementAsync_safe_range 2 5 (by decide) (by decide) (by decide)⟩

/-- Claim C10: no console output is produced during the synchronous
evaluation of the script itself: the synchronous phase (turn 0) emits
no events at all, and every event of the full run — the `begin` line
included — happens on turn 1 or later, after the top-level code has
returned. -/
theorem output_all_deferred :
    scriptSync.1 = [] ∧
    outputs scriptSync.1 = [] ∧
    scriptTrace.all (fun e => decide (1 ≤ e.turn)) = true :=
  ⟨rfl, rfl, by decide⟩

end Async02
